import Mathlib

/-!
Verification of the stract/cuely ranking-path core against its source:
the bang redirector (`core/src/bangs.rs`) and the per-segment signal
computer (`crates/core/src/ranking/signal/computer/mod.rs`).

Rust strings are embedded as `List Char`; `f64` arithmetic on exact
values is embedded as `ℚ`, with an explicit `FVal` extension where the
code can produce an IEEE infinity.
-/

set_option autoImplicit false

namespace Stract

/-- Rust `String` / `&str`, embedded as its character sequence. -/
abbrev Str := List Char

/-- Worker for `replaceAll`, structurally recursive on a fuel bound so
that concrete instances reduce inside the kernel.  Each step consumes
at least one character of the subject, so fuel `s.length` always
suffices. -/
def replaceAllAux (pat rep : Str) : Nat → Str → Str
  | _, [] => []
  | 0, s => s
  | fuel + 1, c :: rest =>
    if pat.isPrefixOf (c :: rest) ∧ 0 < pat.length then
      rep ++ replaceAllAux pat rep fuel (rest.drop (pat.length - 1))
    else
      c :: replaceAllAux pat rep fuel rest

/-- Embeds Rust `str::replace(pat, rep)`: replace every non-overlapping
occurrence of `pat`, scanning left to right.  An empty pattern never
matches here; the only pattern used by the source is the 7-character
placeholder, which is nonempty. -/
def replaceAll (pat rep s : Str) : Str :=
  replaceAllAux pat rep s.length s

/-- The literal placeholder `{{{s}}}` from `bangs.rs`. -/
def placeholder : Str := "\x7b\x7b\x7bs\x7d\x7d\x7d".toList

/-- `Bang` record (`bangs.rs` lines 26-48).  The optional metadata
fields (`category`, `sub_category`, `domain`, `ranking`, `site`) play no
role in any verified operation but are kept for shape fidelity. -/
structure Bang where
  category : Option Str := none
  sub_category : Option Str := none
  domain : Option Str := none
  ranking : Option Nat := none
  site : Option Str := none
  tag : Str
  url : Str
  deriving DecidableEq, Repr

/-- `BangHit` (`bangs.rs` lines 50-54).  `Url` is a newtype over
`String` in the source; we embed it as `Str` directly. -/
structure BangHit where
  bang : Bang
  redirect_to : Str
  deriving DecidableEq, Repr

/-- The bang table (`bangs.rs` lines 56-58).  The source stores a
`HashMap<String, Bang>`; we embed it as the insertion-ordered list of
`(tag, bang)` pairs, with lookup finding the LAST inserted pair for a
key, which is `HashMap` semantics for repeated `insert` during
`collect`. -/
structure Bangs where
  bangs : List (Str × Bang)

/-- `HashMap::get`, under the last-insert-wins embedding. -/
def Bangs.find (b : Bangs) (t : Str) : Option Bang :=
  (b.bangs.reverse.find? (fun p => p.1 == t)).map (·.2)

/-- Builds the map exactly as `Bangs::from_json` does from the parsed
record list: `all_bangs.into_iter().map(|bang| (bang.tag.clone(), bang)).collect()`. -/
def Bangs.ofList (l : List Bang) : Bangs :=
  ⟨l.map (fun bang => (bang.tag, bang))⟩

/-- Parse failure of the external `serde_json::from_str`.  The JSON
decoder itself is external to this repository; `from_json` consumes its
outcome. -/
inductive ParseErr where
  | malformed
  deriving DecidableEq, Repr

/-- `Bangs::from_json` (`bangs.rs` lines 67-76), embedded over the
outcome of the external `serde_json::from_str` call.  The source does
`serde_json::from_str(json).unwrap()`: on a parse error the `unwrap`
panics, which the embedding records as `none`; on success the table is
built.  There is no error-value channel in the source signature
(`from_json` returns `Self`, not a `Result`). -/
def Bangs.from_json (parsed : Except ParseErr (List Bang)) : Option Bangs :=
  match parsed with
  | .error _ => none
  | .ok all_bangs => some (Bangs.ofList all_bangs)

/-- Query terms (`query::parser::Term`, outside `src/`).  Modelled from
the spec: a term is `Word(string)`, `PossibleBang(string)` (a token
starting with `!`, stored without the prefix since the table keys carry
no `!`), or other variants that are opaque to this core; only the first
two are relevant to the bang path, so only they are carried. -/
inductive Term where
  | word (s : Str)
  | possibleBang (s : Str)
  deriving DecidableEq, Repr

/-- Modelled from the spec: `Term`'s `to_string` surface form
(`query::parser`, outside `src/`).  Per the spec an unmatched
`PossibleBang` is "kept in the joined string as its surface form,
including the leading `!`"; a word renders as itself. -/
def Term.render : Term → Str
  | .word s => s
  | .possibleBang s => '!' :: s

/-- The query built inside `Bangs::get` for a chosen bang: all terms
except every `PossibleBang` whose payload equals the chosen one, each
rendered, joined by single spaces (`itertools::intersperse`). -/
def bangQueryStr (terms : List Term) (chosen : Str) : Str :=
  (List.intersperse " ".toList
    ((terms.filter (fun term =>
      match term with
      | .possibleBang b => b != chosen
      | _ => true)).map Term.render)).flatten

/-- Loop body of `Bangs::get` (`bangs.rs` lines 78-115): scan the
suffix `rest` of the full term list `all` for the first `PossibleBang`
whose tag is in the table; on a hit, build the redirect by replacing
every `{{{s}}}` in the bang's url with the joined remaining terms.  The
source's `for`-over-`filter_map` with early `return` becomes structural
recursion. -/
def Bangs.getAux (b : Bangs) (all : List Term) : List Term → Option BangHit
  | [] => none
  | .word _ :: rest => b.getAux all rest
  | .possibleBang possible_bang :: rest =>
    match b.find possible_bang with
    | some bang =>
      some { bang := bang
             redirect_to := replaceAll placeholder (bangQueryStr all possible_bang) bang.url }
    | none => b.getAux all rest

/-- `Bangs::get` (`bangs.rs` lines 78-115). -/
def Bangs.get (b : Bangs) (terms : List Term) : Option BangHit :=
  b.getAux terms terms

/-! ### Declarative descriptions of the bang lookup, from the spec's words -/

/-- The `(tag, bang)` pairs of the `PossibleBang` terms whose tag is in
the table, in term order (spec side, for comparison with the scan in
`Bangs.get`). -/
def matchingBangs (b : Bangs) (terms : List Term) : List (Str × Bang) :=
  terms.filterMap (fun term =>
    match term with
    | .possibleBang s => (b.find s).map (fun bang => (s, bang))
    | _ => none)

/-- The first `PossibleBang` in term order whose tag is in the table
(spec side). -/
def firstMatchingBang (b : Bangs) (terms : List Term) : Option (Str × Bang) :=
  (matchingBangs b terms).head?

/-- Removes the first occurrence of a term from the list (used by the
claim-side redirect construction, which removes only "the chosen bang
term"). -/
def removeFirstTerm (x : Term) : List Term → List Term
  | [] => []
  | t :: rest => if t == x then rest else t :: removeFirstTerm x rest

/-- The joined query string as claim C3 words it: all terms in the
original order EXCEPT THE CHOSEN BANG TERM (one term), rendered and
joined with single spaces. -/
def claimQueryStr (terms : List Term) (chosen : Str) : Str :=
  (List.intersperse " ".toList
    ((removeFirstTerm (Term.possibleBang chosen) terms).map Term.render)).flatten

/-- The bang lookup exactly as claim C3 states it: the hit for the
first matching `PossibleBang`, with the redirect built from
`claimQueryStr` (removing only the single chosen term). -/
def claimGet (b : Bangs) (terms : List Term) : Option BangHit :=
  (firstMatchingBang b terms).map (fun p =>
    { bang := p.2
      redirect_to := replaceAll placeholder (claimQueryStr terms p.1) p.2.url })

/-- The joined query string of the amended claim: all terms in the
original order except EVERY `PossibleBang` equal to the chosen one,
rendered and joined with single spaces. -/
def amendedQueryStr (terms : List Term) (chosen : Str) : Str :=
  (List.intersperse " ".toList
    ((terms.filter (fun term => term != Term.possibleBang chosen)).map Term.render)).flatten

/-! ### Concrete bang fixtures -/

/-- The YouTube bang of the source's own test (`bangs.rs` lines
125-159), metadata omitted. -/
def ytBang : Bang :=
  { tag := "ty".toList
    url := "https://www.youtube.com/results?search_query=\x7b\x7b\x7bs\x7d\x7d\x7d".toList }

/-- A single-entry table registering only `ty`. -/
def ytBangs : Bangs := Bangs.ofList [ytBang]

/-- A minimal bang with a short template, for the duplicate-tag term
counterexample. -/
def xBang : Bang := { tag := "ty".toList, url := "https://x/\x7b\x7b\x7bs\x7d\x7d\x7d".toList }

/-- Table registering only `xBang`. -/
def xBangs : Bangs := Bangs.ofList [xBang]

/-- A query containing the chosen bang tag twice: `!ty a !ty`. -/
def dupTerms : List Term :=
  [Term.possibleBang ("ty".toList), Term.word ("a".toList), Term.possibleBang ("ty".toList)]

/-- Two records sharing the tag `a` with different urls, plus one other
tag, for the duplicate-tag table claim. -/
def bangA1 : Bang := { tag := "a".toList, url := "https://first/".toList }

/-- Second record with tag `a`. -/
def bangA2 : Bang := { tag := "a".toList, url := "https://second/".toList }

/-- A record with a distinct tag `b`. -/
def bangB : Bang := { tag := "b".toList, url := "https://b/".toList }

/-! ## Signal computer (`crates/core/src/ranking/signal/computer/mod.rs`) -/

/-- A signal tag.  `SignalEnum` is a closed enumeration declared in
`signal/mod.rs`, outside `src/`; the claims never depend on which
signals exist, so a signal is embedded as an abstract identifier. -/
structure SignalEnum where
  id : Nat
  deriving DecidableEq, Repr

/-- An IEEE `f64` value as the source produces it on the verified
paths: either an exact finite value (embedded as a rational) or
positive infinity. -/
inductive FVal where
  | fin (q : ℚ)
  | inf
  deriving DecidableEq, Repr

/-- Rust `f64` division `a / b` for a positive finite numerator `a`:
IEEE yields `+inf` on a zero divisor, the exact quotient otherwise
(exact whenever the claim evaluates it). -/
def f64div (a b : ℚ) : FVal :=
  if b = 0 then .inf else .fin (a / b)

/-- An optic rule action (`optics::Action`, sibling crate outside
`src/`).  Modelled from the spec: `Discard | Boost(b) | Downrank(b)`;
the magnitude is embedded as `ℚ`. -/
inductive Action where
  | boost (b : ℚ)
  | downrank (b : ℚ)
  | discard
  deriving DecidableEq, Repr

/-- An optic rule (`optics::Rule`, outside `src/`).  Modelled from the
spec: an opaque matcher predicate (embedded as an identifier) plus an
action. -/
structure Rule where
  matcher : Nat
  action : Action
  deriving DecidableEq, Repr

/-- An optic: the part consumed by `SignalComputer::new` is its rule
list (`q.optics().iter().flat_map(|o| o.rules.iter())`). -/
structure Optic where
  rules : List Rule
  deriving DecidableEq, Repr

/-- A region tag (`webpage::Region`, outside `src/`), opaque here. -/
structure Region where
  id : Nat
  deriving DecidableEq, Repr

/-- Modelled from the spec: `SignalCoefficient` (`signal/mod.rs`,
outside `src/`), the query's `signal_coefficients: optional mapping
Signal→f64`; per the spec's data model the mapping, when supplied, is a
mapping from signals to `f64` values, so `get` is its application. -/
structure SignalCoefficient where
  get : SignalEnum → ℚ

/-- `LinearRegression` (`ranking/models/linear.rs`, outside `src/`):
the part consumed here is `model.weights.get(signal)`, an optional
per-signal weight. -/
structure LinearRegression where
  weights : SignalEnum → Option ℚ

/-- The parsed query surface consumed by `SignalComputer::new`
(`query::Query`, outside `src/`): `simple_terms()`, `optics()`,
`region()`, `signal_coefficients()`. -/
structure Query where
  simple_terms : List Str
  optics : List Optic
  region : Option Region
  signal_coefficients : Option SignalCoefficient

/-- `QueryData` (`mod.rs` lines 80-90). -/
structure QueryData where
  simple_terms : List Str
  optic_rules : List Rule
  selected_region : Option Region

/-- tantivy's `TERMINATED` sentinel: the `DocId` returned by an
exhausted docset (`u32::MAX`). -/
def TERMINATED : Nat := 4294967295

/-- A tantivy `Scorer`'s docset surface used by `boosts`: a cursor over
an ascending list of doc ids, supporting `doc()` and `seek(target)`.
`docs` is the full posting list; `cursor` is the index of the current
position. -/
structure DocSet where
  docs : List Nat
  cursor : Nat
  deriving DecidableEq, Repr

/-- `DocSet::doc()`: the doc id at the cursor, or `TERMINATED` when the
docset is exhausted. -/
def DocSet.doc (d : DocSet) : Nat :=
  match d.docs.drop d.cursor with
  | [] => TERMINATED
  | x :: _ => x

/-- `DocSet::seek(target)`: advance the cursor past every remaining doc
id `< target` (tantivy seeks to the first doc `≥ target`). -/
def DocSet.seek (d : DocSet) (target : Nat) : DocSet :=
  { d with cursor := d.cursor + ((d.docs.drop d.cursor).takeWhile (fun x => x < target)).length }

/-- `RuleBoost` (`mod.rs` lines 55-58): a compiled rule's docset paired
with its signed boost. -/
structure RuleBoost where
  docset : DocSet
  boost : ℚ
  deriving DecidableEq, Repr

/-- `OpticBoosts` (`mod.rs` lines 60-62). -/
structure OpticBoosts where
  rules : List RuleBoost
  deriving DecidableEq, Repr

/-- The per-segment state (`SegmentReader`, `mod.rs` lines 64-68).  The
`text_fields` map and `fastfield_reader` exist only to let the
registry's per-signal compute functions (outside `src/`) produce
values; they are embedded together as the induced per-signal compute
function `compute`, modelled from the spec (§4.5/§4.6): one optional
value per signal and doc against the bound segment. -/
structure SegmentReader where
  optic_boosts : OpticBoosts
  compute : SignalEnum → Nat → Option ℚ

/-- `SignalComputer` (`mod.rs` lines 92-104).  The
`inbound_similarity`, `query_centrality` and `region_count` handles and
the `order` field are omitted: their types live outside `src/` and no
verified claim consumes them.  The caches hold `FVal` because the
freshness cache genuinely contains an IEEE infinity. -/
structure SignalComputer where
  query_data : Option QueryData
  query_signal_coefficients : Option SignalCoefficient
  segment_reader : Option SegmentReader
  fetch_time_ms_cache : List FVal
  update_time_cache : List FVal
  current_timestamp : Option Nat
  linear_regression : Option LinearRegression

/-- The filter applied to optic rules in `SignalComputer::new`
(`mod.rs` lines 167-170). -/
def ruleKept (rule : Rule) : Bool :=
  match rule.action with
  | .downrank b => b != 0
  | .boost b => b != 0
  | .discard => false

/-- `SignalComputer::new` (`mod.rs` lines 150-194).  `log2` stands for
the external `f64::log2` restricted to the positive-integer inputs the
cache construction feeds it; `now` stands for the wall-clock
`chrono::Utc::now().timestamp()` installed via
`set_current_timestamp`. -/
def SignalComputer.new (log2 : Nat → ℚ) (now : Nat) (query : Option Query) :
    SignalComputer :=
  { query_data := query.map (fun q =>
      { simple_terms := q.simple_terms
        optic_rules := (q.optics.flatMap (fun o => o.rules)).filter ruleKept
        selected_region := q.region })
    query_signal_coefficients := query.bind (fun q => q.signal_coefficients)
    segment_reader := none
    fetch_time_ms_cache := (List.range 1000).map
      (fun fetch_time => f64div 1 ((fetch_time : ℚ) + 1))
    update_time_cache := (List.range (3 * 365 * 24)).map
      (fun hours_since_update => f64div 1 (log2 (hours_since_update + 1)))
    current_timestamp := some now
    linear_regression := none }

/-- `SignalComputer::register_segment` (`mod.rs` lines 290-309): binds
the prepared per-segment state.  The preparation of text fields and
optic docsets reads the external tantivy index; the embedding receives
the prepared `SegmentReader` directly. -/
def SignalComputer.register_segment (c : SignalComputer) (sr : SegmentReader) :
    SignalComputer :=
  { c with segment_reader := some sr }

/-- One iteration of the rule loop in `boosts` (`mod.rs` lines
363-375): a rule whose docset is already past `doc` is skipped; one at
`doc`, or reaching `doc` after a seek, contributes. -/
def RuleBoost.contributes (r : RuleBoost) (doc : Nat) : Bool :=
  if r.docset.doc > doc then false
  else if r.docset.doc == doc then true
  else (r.docset.seek doc).doc == doc

/-- `SignalComputer::boosts` (`mod.rs` lines 358-384). -/
def SignalComputer.boosts (c : SignalComputer) (doc : Nat) : Option ℚ :=
  c.segment_reader.map (fun segment_reader =>
    let acc := segment_reader.optic_boosts.rules.foldl
      (fun (acc : ℚ × ℚ) rule =>
        if rule.contributes doc then
          if rule.boost < 0 then (acc.1 + |rule.boost|, acc.2)
          else (acc.1, acc.2 + rule.boost)
        else acc)
      (0, 0)
    let downrank := acc.1
    let boost := acc.2
    if downrank > boost then
      let diff := downrank - boost
      1 / (1 + diff)
    else
      boost - downrank + 1)

/-- `SignalComputer::coefficient` (`mod.rs` lines 403-413).
`default_coefficient` stands for the registry's per-signal default
(`signal/mod.rs`, outside `src/`), passed as a parameter. -/
def SignalComputer.coefficient (default_coefficient : SignalEnum → ℚ)
    (c : SignalComputer) (signal : SignalEnum) : ℚ :=
  (Option.orElse
    (c.query_signal_coefficients.map (fun coefficients => coefficients.get signal))
    (fun _ => c.linear_regression.bind (fun model => model.weights signal))).getD
    (default_coefficient signal)

/-- Modelled from the spec: `compute_signals` delegates to
`SignalComputeOrder::compute` (`computer/order.rs`, outside `src/`).
Per §4.6/§7 it yields one optional entry per active signal in the
chosen order, computed against the bound segment, and before
`register_segment` it yields a score-free sequence rather than
raising. -/
def SignalComputer.compute_signals (c : SignalComputer) (order : List SignalEnum)
    (doc : Nat) : List (Option ℚ) :=
  order.map (fun signal =>
    match c.segment_reader with
    | none => none
    | some sr => sr.compute signal doc)

/-- Modelled from the spec (§4.5): the `update_timestamp` freshness
signal clamps the hours since update to `[0, 3·365·24)` and looks up
`update_time_cache[hours]`. -/
def SignalComputer.update_freshness (c : SignalComputer) (hours : Nat) : Option FVal :=
  c.update_time_cache[min hours (3 * 365 * 24 - 1)]?

/-- `SignalComputer::set_linear_model` (`mod.rs` lines 330-332). -/
def SignalComputer.set_linear_model (c : SignalComputer) (m : LinearRegression) :
    SignalComputer :=
  { c with linear_regression := some m }

/-! ### Claim-side sums and predicates for the boost claims -/

/-- Head of a remaining posting list, `TERMINATED` when exhausted. -/
def headT : List Nat → Nat
  | [] => TERMINATED
  | x :: _ => x

/-- The ascending-access state the claims assume of a bound rule: the
docset cursor is at the start, its doc ids are strictly ascending
(tantivy posting order) and below the `TERMINATED` sentinel. -/
def RuleBoost.fresh (r : RuleBoost) : Prop :=
  r.docset.cursor = 0 ∧ r.docset.docs.Pairwise (· < ·)

instance (r : RuleBoost) : Decidable r.fresh := by
  unfold RuleBoost.fresh
  infer_instance

/-- Claim side: the sum of the positive boosts of the rules whose
docset contains the doc. -/
def matchedUp (rules : List RuleBoost) (doc : Nat) : ℚ :=
  (rules.map (fun r => if doc ∈ r.docset.docs ∧ 0 < r.boost then r.boost else 0)).sum

/-- Claim side: the sum of the absolute values of the negative boosts
of the rules whose docset contains the doc. -/
def matchedDown (rules : List RuleBoost) (doc : Nat) : ℚ :=
  (rules.map (fun r => if doc ∈ r.docset.docs ∧ r.boost < 0 then |r.boost| else 0)).sum

/-- Code side: what the `boosts` loop accumulates into `boost`. -/
def upSum (rules : List RuleBoost) (doc : Nat) : ℚ :=
  (rules.map (fun r => if r.contributes doc ∧ ¬r.boost < 0 then r.boost else 0)).sum

/-- Code side: what the `boosts` loop accumulates into `downrank`. -/
def downSum (rules : List RuleBoost) (doc : Nat) : ℚ :=
  (rules.map (fun r => if r.contributes doc ∧ r.boost < 0 then |r.boost| else 0)).sum

/-- Claim side for C9: a rule is removed when its action is `Discard`
or its boost/downrank magnitude is zero. -/
def ruleRemovedClaim (rule : Rule) : Bool :=
  match rule.action with
  | .discard => true
  | .boost b => b == 0
  | .downrank b => b == 0

/-! ### Concrete signal fixtures -/

/-- A stand-in for the external `f64::log2` in concrete fixtures; only
its value at 1, which is 0 for the real function, matters to the
claims. -/
def exLog2 : Nat → ℚ := fun n => if n = 1 then 0 else (n : ℚ)

/-- A computer before any segment is bound. -/
def unboundComputer : SignalComputer := SignalComputer.new exLog2 1000 none

/-- A computer with a bound segment carrying the given optic rule
boosts and no scorable signals. -/
def mkComputer (rules : List RuleBoost) : SignalComputer :=
  unboundComputer.register_segment
    { optic_boosts := { rules := rules }, compute := fun _ _ => none }

/-- A docset positioned at the start whose single doc id is 5. -/
def docset5 : DocSet := { docs := [5], cursor := 0 }

/-- Rule boost +2 matching doc 5. -/
def rulePlus2 : RuleBoost := { docset := docset5, boost := 2 }

/-- Rule boost +1 matching doc 5. -/
def rulePlus1 : RuleBoost := { docset := docset5, boost := 1 }

/-- Rule boost −5 matching doc 5. -/
def ruleMinus5 : RuleBoost := { docset := docset5, boost := -5 }

/-- The signal used by the coefficient fixtures. -/
def sigS : SignalEnum := ⟨7⟩

/-- A query-supplied coefficient mapping giving every signal 3. -/
def qOverride : SignalCoefficient := ⟨fun _ => 3⟩

/-- A linear model providing weight 5 for `sigS` only. -/
def lrModel : LinearRegression := ⟨fun s => if s == sigS then some 5 else none⟩

/-- Registry defaults giving every signal 9. -/
def exDefaults : SignalEnum → ℚ := fun _ => 9

/-- A query carrying the coefficient override. -/
def qWithCoeffs : Query :=
  { simple_terms := [], optics := [], region := none, signal_coefficients := some qOverride }

/-- Fixture A: query override present, model bound.  The override must
win. -/
def computerA : SignalComputer :=
  (SignalComputer.new exLog2 1000 (some qWithCoeffs)).set_linear_model lrModel

/-- Fixture B: no override, model bound.  The model weight must win. -/
def computerB : SignalComputer := unboundComputer.set_linear_model lrModel

/-- Fixture C: no override, no model.  The registry default must
win. -/
def computerC : SignalComputer := unboundComputer

end Stract

namespace Stract

/-! ## Helper lemmas: bang lookup -/

/-- The filter inside `Bangs::get` removes exactly the terms equal to
the chosen `PossibleBang`: the code-side predicate (match on the
variant, compare payloads) agrees with plain term equality. -/
theorem bangQueryStr_eq_amended (terms : List Term) (chosen : Str) :
    bangQueryStr terms chosen = amendedQueryStr terms chosen := by
  unfold bangQueryStr amendedQueryStr
  have h : terms.filter (fun term =>
        match term with
        | .possibleBang b => b != chosen
        | _ => true)
      = terms.filter (fun term => term != Term.possibleBang chosen) := by
    apply List.filter_congr
    intro t _
    cases t with
    | word s => simp [bne]
    | possibleBang b => simp [bne]
  rw [h]

/-- Every entry of `matchingBangs` really is a table hit for its
tag. -/
theorem mem_matchingBangs_find {b : Bangs} {terms : List Term} {p : Str × Bang}
    (h : p ∈ matchingBangs b terms) : b.find p.1 = some p.2 := by
  unfold matchingBangs at h
  rw [List.mem_filterMap] at h
  obtain ⟨t, -, ht⟩ := h
  cases t with
  | word s => simp at ht
  | possibleBang s =>
    simp only [Option.map_eq_some'] at ht
    obtain ⟨bang, hfind, hp⟩ := ht
    cases hp
    exact hfind

/-- The first matching bang is a table hit for its tag. -/
theorem firstMatchingBang_find {b : Bangs} {terms : List Term} {p : Str × Bang}
    (h : firstMatchingBang b terms = some p) : b.find p.1 = some p.2 := by
  unfold firstMatchingBang at h
  cases hm : matchingBangs b terms with
  | nil => rw [hm] at h; simp at h
  | cons q rest =>
    rw [hm] at h
    simp only [List.head?_cons, Option.some_inj] at h
    subst h
    exact mem_matchingBangs_find (hm ▸ List.mem_cons_self q rest)

/-- The scanning loop of `Bangs::get` computes exactly the hit of the
first `PossibleBang` whose tag is in the table, with the redirect built
from the joined remaining terms. -/
theorem getAux_eq (b : Bangs) (all : List Term) (rest : List Term) :
    b.getAux all rest = (firstMatchingBang b rest).map (fun p =>
      { bang := p.2
        redirect_to := replaceAll placeholder (bangQueryStr all p.1) p.2.url }) := by
  induction rest with
  | nil => rfl
  | cons t rest ih =>
    cases t with
    | word s =>
      simpa [Bangs.getAux, firstMatchingBang, matchingBangs] using ih
    | possibleBang s =>
      cases hf : b.find s with
      | none =>
        simpa [Bangs.getAux, hf, firstMatchingBang, matchingBangs] using ih
      | some bang =>
        simp [Bangs.getAux, hf, firstMatchingBang, matchingBangs]

/-- `Bangs::get` as the declarative first-match description. -/
theorem get_eq_firstMatching (b : Bangs) (terms : List Term) :
    b.get terms = (firstMatchingBang b terms).map (fun p =>
      { bang := p.2
        redirect_to := replaceAll placeholder (bangQueryStr terms p.1) p.2.url }) :=
  getAux_eq b terms terms

/-! ## Claim theorems: bang redirector -/

/-- C6: for every term sequence, the lookup returns the hit for the
first `PossibleBang` in term order whose tag is in the table, and
returns none when no `PossibleBang` tag is in the table (in particular
when there is no `PossibleBang` at all). -/
theorem c6_first_matching_bang_wins :
    ∀ (b : Bangs) (terms : List Term),
      (firstMatchingBang b terms = none → b.get terms = none) ∧
      (∀ t bang, firstMatchingBang b terms = some (t, bang) →
        b.find t = some bang ∧ ∃ hit, b.get terms = some hit ∧ hit.bang = bang) := by
  intro b terms
  constructor
  · intro h
    rw [get_eq_firstMatching, h]
    rfl
  · intro t bang h
    refine ⟨firstMatchingBang_find h, ?_⟩
    rw [get_eq_firstMatching, h]
    exact ⟨_, rfl, rfl⟩

/-- C6 witness: on concrete inputs — a query with no matching bang tag
returns none; with `xx` unregistered and `ty` registered, the hit is
the `ty` bang. -/
theorem c6_witness :
    (ytBangs.get [Term.word ("foo".toList), Term.word ("bar".toList)] = none) ∧
    ytBangs.find ("ty".toList) = some ytBang ∧
    ∃ hit, ytBangs.get [Term.possibleBang ("xx".toList), Term.possibleBang ("ty".toList),
      Term.word ("w".toList)] = some hit ∧ hit.bang = ytBang := by
  refine ⟨(c6_first_matching_bang_wins ytBangs _).1 (by decide), ?_⟩
  have h := (c6_first_matching_bang_wins ytBangs
    [Term.possibleBang ("xx".toList), Term.possibleBang ("ty".toList),
      Term.word ("w".toList)]).2 ("ty".toList) ytBang (by decide)
  exact ⟨h.1, h.2⟩

/-- C3 counterexample: on the query `!ty a !ty` (the chosen tag occurs
twice) the code removes EVERY `PossibleBang` bearing the chosen tag
from the joined string, while the claim as stated removes only the
single chosen bang term: the code redirects to `https://x/a`, the
claim's construction to `https://x/a !ty`. -/
theorem c3_counterexample :
    xBangs.get dupTerms ≠ claimGet xBangs dupTerms ∧
    (xBangs.get dupTerms).map BangHit.redirect_to = some ("https://x/a".toList) ∧
    (claimGet xBangs dupTerms).map BangHit.redirect_to = some ("https://x/a !ty".toList) :=
  ⟨by decide, by decide, by decide⟩

/-- C3 (amended): for every term sequence in which some
`PossibleBang`'s tag is in the table, the lookup builds the redirect by
collecting all terms in the original query order except EVERY
`PossibleBang` whose tag equals the chosen bang's tag, rendering each
to its surface form (an unmatched `PossibleBang` keeps its leading
`!`), joining adjacent renderings with a single space, and replacing
every occurrence of the placeholder in the template with the joined
string; in particular `!ty !foo bangs` with only `ty` registered
redirects to `https://www.youtube.com/results?search_query=!foo bangs`. -/
theorem c3_redirect_construction :
    (∀ (b : Bangs) (terms : List Term) (t : Str) (bang : Bang),
        firstMatchingBang b terms = some (t, bang) →
        b.get terms = some { bang := bang
                             redirect_to :=
                               replaceAll placeholder (amendedQueryStr terms t) bang.url }) ∧
    ytBangs.get [Term.possibleBang ("ty".toList), Term.possibleBang ("foo".toList),
        Term.word ("bangs".toList)]
      = some { bang := ytBang
               redirect_to :=
                 "https://www.youtube.com/results?search_query=!foo bangs".toList } := by
  constructor
  · intro b terms t bang h
    rw [get_eq_firstMatching, h, Option.map_some']
    rw [bangQueryStr_eq_amended]
  · decide

/-- C3 witness: the amended construction applied to the duplicate-tag
query. -/
theorem c3_witness :
    xBangs.get dupTerms = some { bang := xBang
                                 redirect_to :=
                                   replaceAll placeholder
                                     (amendedQueryStr dupTerms ("ty".toList)) xBang.url } :=
  c3_redirect_construction.1 xBangs dupTerms ("ty".toList) xBang (by decide)

/-- C4 counterexample: at a malformed input the loader does not produce
a `MalformedBangs` error value — the `unwrap` on the serde result
panics, recorded as `none` by the embedding (`from_json` has no error
channel in its signature at all). -/
theorem c4_counterexample :
    Bangs.from_json (Except.error ParseErr.malformed) = none := rfl

/-- C4 (amended): for every malformed input (JSON parse failure or
shape mismatch), loading the bang table panics — the parse result is
unwrapped, aborting construction — rather than returning a
`MalformedBangs` error value; on well-formed input the table is
built. -/
theorem c4_panic_on_malformed :
    (∀ e, Bangs.from_json (Except.error e) = none) ∧
    (∀ l, Bangs.from_json (Except.ok l) = some (Bangs.ofList l)) :=
  ⟨fun _ => rfl, fun _ => rfl⟩

/-- C8: the loaded table maps every tag to the LAST record bearing that
tag in the parsed array, and lookups of other tags are unaffected by
duplicates; concretely, with records tagged `a`, `b`, `a` the tag `a`
maps to the second `a`-record and `b` still maps to its record. -/
theorem c8_last_duplicate_wins :
    (∀ (l : List Bang) (t : Str),
        (Bangs.ofList l).find t = l.reverse.find? (fun bang => bang.tag == t)) ∧
    (Bangs.ofList [bangA1, bangB, bangA2]).find ("a".toList) = some bangA2 ∧
    (Bangs.ofList [bangA1, bangB, bangA2]).find ("b".toList) = some bangB := by
  refine ⟨?_, by decide, by decide⟩
  intro l t
  unfold Bangs.find Bangs.ofList
  rw [← List.map_reverse, List.find?_map]
  simp [Option.map_map, Function.comp_def]


end Stract

namespace Stract

/-! ## Helper lemmas: optic boosts -/

/-- `DocSet.doc` through `headT`. -/
theorem DocSet.doc_eq (d : DocSet) : d.doc = headT (d.docs.drop d.cursor) := rfl

/-- Dropping as many elements as `takeWhile` keeps is `dropWhile`. -/
theorem drop_takeWhile_length {α : Type} (p : α → Bool) (l : List α) :
    l.drop (l.takeWhile p).length = l.dropWhile p := by
  have h := List.takeWhile_append_dropWhile (p := p) (l := l)
  calc l.drop (l.takeWhile p).length
      = (l.takeWhile p ++ l.dropWhile p).drop (l.takeWhile p).length := by rw [h]
    _ = l.dropWhile p := List.drop_left _ _

/-- On a strictly ascending list, the head surviving `dropWhile (< doc)`
is `doc` exactly when `doc` occurs in the list. -/
theorem headT_dropWhile_eq_iff {l : List Nat} {doc : Nat} (hs : l.Pairwise (· < ·))
    (hd : doc < TERMINATED) :
    headT (l.dropWhile (fun x => decide (x < doc))) = doc ↔ doc ∈ l := by
  induction l with
  | nil =>
    simp only [List.dropWhile_nil, headT, List.not_mem_nil, iff_false]
    omega
  | cons x rest ih =>
    rw [List.dropWhile_cons]
    rcases Nat.lt_trichotomy x doc with hx | hx | hx
    · rw [if_pos (by simpa using hx), ih hs.of_cons]
      simp only [List.mem_cons]
      constructor
      · exact fun h => Or.inr h
      · rintro (h | h)
        · omega
        · exact h
    · rw [if_neg (by simpa using Nat.not_lt.mpr hx.ge)]
      simp only [headT, List.mem_cons]
      constructor
      · exact fun h => Or.inl h.symm
      · rintro (h | h)
        · exact h.symm
        · exact absurd ((List.pairwise_cons.mp hs).1 doc h) (by omega)
    · rw [if_neg (by simpa using Nat.not_lt.mpr hx.le)]
      simp only [headT, List.mem_cons]
      constructor
      · omega
      · rintro (h | h)
        · omega
        · exact absurd ((List.pairwise_cons.mp hs).1 doc h) (by omega)

/-- With the cursor at the start, the skip/equal/seek branches of the
`boosts` loop collapse to one `dropWhile` head test. -/
theorem contributes_eq_headT {r : RuleBoost} {doc : Nat} (h0 : r.docset.cursor = 0)
    (hd : doc < TERMINATED) :
    r.contributes doc
      = (headT (r.docset.docs.dropWhile (fun x => decide (x < doc))) == doc) := by
  unfold RuleBoost.contributes DocSet.seek
  rw [DocSet.doc_eq, DocSet.doc_eq]
  simp only [h0, List.drop_zero, Nat.zero_add, drop_takeWhile_length]
  cases hl : r.docset.docs with
  | nil =>
    have hd2 : doc < 4294967295 := by simpa [TERMINATED] using hd
    rw [if_pos (show headT ([] : List Nat) > doc by simp [headT, TERMINATED]; omega)]
    simp [headT, TERMINATED]
    omega
  | cons x rest =>
    rcases Nat.lt_trichotomy x doc with hx | hx | hx
    · rw [if_neg (by simpa [headT] using Nat.not_lt.mpr hx.le),
        if_neg (by simp [headT]; omega), List.dropWhile_cons, if_pos (by simpa using hx)]
    · subst hx
      rw [if_neg (by simp [headT]), if_pos (by simp [headT]), List.dropWhile_cons,
        if_neg (by simp), headT]
      simp
    · rw [if_pos (by simpa [headT] using hx), List.dropWhile_cons,
        if_neg (by simpa using Nat.not_lt.mpr hx.le), headT]
      have : (x == doc) = false := by simp; omega
      rw [this]

/-- Under the ascending-access assumptions, a rule contributes to the
`boosts` sums exactly when its docset contains the doc. -/
theorem contributes_iff_mem {r : RuleBoost} {doc : Nat} (hr : r.fresh)
    (hd : doc < TERMINATED) :
    r.contributes doc = true ↔ doc ∈ r.docset.docs := by
  obtain ⟨h0, hs⟩ := hr
  rw [contributes_eq_headT h0 hd, beq_iff_eq]
  exact headT_dropWhile_eq_iff hs hd

/-- The imperative accumulation in `boosts` computes the two signed
sums. -/
theorem boosts_foldl_eq (doc : Nat) (rules : List RuleBoost) (d0 u0 : ℚ) :
    rules.foldl (fun acc rule =>
      if rule.contributes doc then
        if rule.boost < 0 then (acc.1 + |rule.boost|, acc.2)
        else (acc.1, acc.2 + rule.boost)
      else acc) (d0, u0)
    = (d0 + downSum rules doc, u0 + upSum rules doc) := by
  induction rules generalizing d0 u0 with
  | nil => simp [downSum, upSum]
  | cons r rest ih =>
    simp only [List.foldl_cons, downSum, upSum, List.map_cons, List.sum_cons]
    by_cases hc : r.contributes doc
    · by_cases hb : r.boost < 0
      · rw [if_pos hc, if_pos hb, ih]
        rw [if_pos ⟨hc, hb⟩, if_neg (fun h => h.2 hb)]
        refine Prod.ext ?_ ?_ <;> simp [downSum, upSum] <;> try ring
      · rw [if_pos hc, if_neg hb, ih]
        rw [if_neg (fun h => hb h.2), if_pos ⟨hc, hb⟩]
        refine Prod.ext ?_ ?_ <;> simp [downSum, upSum] <;> try ring
    · rw [if_neg hc, ih]
      rw [if_neg (fun h => hc h.1), if_neg (fun h => hc h.1)]
      refine Prod.ext ?_ ?_ <;> simp [downSum, upSum]

/-- `boosts` on a bound segment, in terms of the two loop sums. -/
theorem boosts_eq_sums {c : SignalComputer} {sr : SegmentReader} (doc : Nat)
    (hsr : c.segment_reader = some sr) :
    c.boosts doc = some (
      if downSum sr.optic_boosts.rules doc > upSum sr.optic_boosts.rules doc then
        1 / (1 + (downSum sr.optic_boosts.rules doc - upSum sr.optic_boosts.rules doc))
      else upSum sr.optic_boosts.rules doc - downSum sr.optic_boosts.rules doc + 1) := by
  unfold SignalComputer.boosts
  rw [hsr, Option.map_some']
  simp only [boosts_foldl_eq, zero_add]

/-- The `boost` accumulator equals the claim-side positive sum under
the ascending-access assumptions. -/
theorem upSum_eq_matchedUp {rules : List RuleBoost} {doc : Nat}
    (hr : ∀ r ∈ rules, r.fresh) (hd : doc < TERMINATED) :
    upSum rules doc = matchedUp rules doc := by
  unfold upSum matchedUp
  congr 1
  apply List.map_congr_left
  intro r hmem
  have hiff := contributes_iff_mem (hr r hmem) hd
  by_cases hb : r.boost < 0
  · rw [if_neg (fun h => h.2 hb), if_neg (fun h => absurd hb (not_lt.mpr h.2.le))]
  · rcases eq_or_lt_of_le (not_lt.mp hb) with heq | hpos
    · rw [← heq]
      simp
    · by_cases hm : doc ∈ r.docset.docs
      · rw [if_pos ⟨hiff.mpr hm, hb⟩, if_pos ⟨hm, hpos⟩]
      · rw [if_neg (fun h => hm (hiff.mp h.1)), if_neg (fun h => hm h.1)]

/-- The `downrank` accumulator equals the claim-side downrank sum under
the ascending-access assumptions. -/
theorem downSum_eq_matchedDown {rules : List RuleBoost} {doc : Nat}
    (hr : ∀ r ∈ rules, r.fresh) (hd : doc < TERMINATED) :
    downSum rules doc = matchedDown rules doc := by
  unfold downSum matchedDown
  congr 1
  apply List.map_congr_left
  intro r hmem
  have hiff := contributes_iff_mem (hr r hmem) hd
  by_cases hb : r.boost < 0
  · by_cases hm : doc ∈ r.docset.docs
    · rw [if_pos ⟨hiff.mpr hm, hb⟩, if_pos ⟨hm, hb⟩]
    · rw [if_neg (fun h => hm (hiff.mp h.1)), if_neg (fun h => hm h.1)]
  · rw [if_neg (fun h => hb h.2), if_neg (fun h => hb h.2)]

/-- `boosts` on a bound segment under ascending access, in terms of the
claim-side matched sums. -/
theorem boosts_closed_form {c : SignalComputer} {sr : SegmentReader} (doc : Nat)
    (hsr : c.segment_reader = some sr) (hd : doc < TERMINATED)
    (hr : ∀ r ∈ sr.optic_boosts.rules, r.fresh) :
    c.boosts doc = some (
      if matchedDown sr.optic_boosts.rules doc > matchedUp sr.optic_boosts.rules doc then
        1 / (1 + (matchedDown sr.optic_boosts.rules doc - matchedUp sr.optic_boosts.rules doc))
      else matchedUp sr.optic_boosts.rules doc - matchedDown sr.optic_boosts.rules doc + 1) := by
  rw [boosts_eq_sums doc hsr, upSum_eq_matchedUp hr hd, downSum_eq_matchedDown hr hd]

/-- The positive-boost loop sum is nonnegative. -/
theorem upSum_nonneg (rules : List RuleBoost) (doc : Nat) : 0 ≤ upSum rules doc := by
  apply List.sum_nonneg
  intro x hx
  rw [List.mem_map] at hx
  obtain ⟨r, -, rfl⟩ := hx
  split
  · next h => exact not_lt.mp h.2
  · exact le_refl 0

/-- The downrank loop sum is nonnegative. -/
theorem downSum_nonneg (rules : List RuleBoost) (doc : Nat) : 0 ≤ downSum rules doc := by
  apply List.sum_nonneg
  intro x hx
  rw [List.mem_map] at hx
  obtain ⟨r, -, rfl⟩ := hx
  split
  · exact abs_nonneg _
  · exact le_refl 0

/-- The claim-side positive sum is nonnegative. -/
theorem matchedUp_nonneg (rules : List RuleBoost) (doc : Nat) : 0 ≤ matchedUp rules doc := by
  apply List.sum_nonneg
  intro x hx
  rw [List.mem_map] at hx
  obtain ⟨r, -, rfl⟩ := hx
  split
  · next h => exact h.2.le
  · exact le_refl 0

/-- The claim-side downrank sum is nonnegative. -/
theorem matchedDown_nonneg (rules : List RuleBoost) (doc : Nat) : 0 ≤ matchedDown rules doc := by
  apply List.sum_nonneg
  intro x hx
  rw [List.mem_map] at hx
  obtain ⟨r, -, rfl⟩ := hx
  split
  · exact abs_nonneg _
  · exact le_refl 0

/-- With no rule containing the doc, the claim-side positive sum is
zero. -/
theorem matchedUp_eq_zero {rules : List RuleBoost} {doc : Nat}
    (h : ∀ r ∈ rules, doc ∉ r.docset.docs) : matchedUp rules doc = 0 := by
  apply List.sum_eq_zero
  intro x hx
  rw [List.mem_map] at hx
  obtain ⟨r, hr, rfl⟩ := hx
  rw [if_neg (fun hc => h r hr hc.1)]

/-- With no rule containing the doc, the claim-side downrank sum is
zero. -/
theorem matchedDown_eq_zero {rules : List RuleBoost} {doc : Nat}
    (h : ∀ r ∈ rules, doc ∉ r.docset.docs) : matchedDown rules doc = 0 := by
  apply List.sum_eq_zero
  intro x hx
  rw [List.mem_map] at hx
  obtain ⟨r, hr, rfl⟩ := hx
  rw [if_neg (fun hc => h r hr hc.1)]

/-- The boost multiplier is positive. -/
theorem boostFormula_pos {u d : ℚ} :
    0 < (if d > u then 1 / (1 + (d - u)) else u - d + 1) := by
  split
  · next h => exact div_pos one_pos (by linarith)
  · next h => have := not_lt.mp h; linarith

/-- The boost multiplier is at least one under a net boost. -/
theorem boostFormula_ge_one {u d : ℚ} (h : d ≤ u) :
    1 ≤ (if d > u then 1 / (1 + (d - u)) else u - d + 1) := by
  rw [if_neg (not_lt.mpr h)]
  linarith

/-- The boost multiplier is at most one under a net downrank. -/
theorem boostFormula_le_one {u d : ℚ} (h : u < d) :
    (if d > u then 1 / (1 + (d - u)) else u - d + 1) ≤ 1 := by
  rw [if_pos h, div_le_one (by linarith)]
  linarith

end Stract

namespace Stract

/-! ## Claim theorems: signal computer -/

/-- C1: for every bound segment and doc, with `up` the sum of positive
boosts of bound optic rules whose docset lands on the doc and `down`
the sum of absolute values of negative boosts of such rules, `boosts`
returns `1 / (1 + (down − up))` when `down > up` and `(up − down) + 1`
otherwise; in particular rules with boosts +2 and −5 matching the doc
give 0.25 and rules with +2 and +1 give 4. -/
theorem c1_boosts_formula :
    (∀ (c : SignalComputer) (sr : SegmentReader) (doc : Nat),
        c.segment_reader = some sr → doc < TERMINATED →
        (∀ r ∈ sr.optic_boosts.rules, r.fresh) →
        c.boosts doc = some (
          if matchedDown sr.optic_boosts.rules doc > matchedUp sr.optic_boosts.rules doc then
            1 / (1 + (matchedDown sr.optic_boosts.rules doc
              - matchedUp sr.optic_boosts.rules doc))
          else matchedUp sr.optic_boosts.rules doc
            - matchedDown sr.optic_boosts.rules doc + 1)) ∧
    (mkComputer [rulePlus2, ruleMinus5]).boosts 5 = some (1/4) ∧
    (mkComputer [rulePlus2, rulePlus1]).boosts 5 = some 4 := by
  refine ⟨?_, ?_, ?_⟩
  · intro c sr doc hsr hd hr
    exact boosts_closed_form doc hsr hd hr
  · simp [SignalComputer.boosts, mkComputer, SignalComputer.register_segment, unboundComputer,
      SignalComputer.new, RuleBoost.contributes, DocSet.doc, DocSet.seek, rulePlus2, ruleMinus5,
      docset5, TERMINATED]
    norm_num
  · simp [SignalComputer.boosts, mkComputer, SignalComputer.register_segment, unboundComputer,
      SignalComputer.new, RuleBoost.contributes, DocSet.doc, DocSet.seek, rulePlus2, rulePlus1,
      docset5, TERMINATED]
    norm_num

/-- C1 witness: the general formula instantiated on the two-rule
fixture `(+2, −5)` at doc 5. -/
theorem c1_witness :
    (mkComputer [rulePlus2, ruleMinus5]).boosts 5 = some (
      if matchedDown [rulePlus2, ruleMinus5] 5 > matchedUp [rulePlus2, ruleMinus5] 5 then
        1 / (1 + (matchedDown [rulePlus2, ruleMinus5] 5 - matchedUp [rulePlus2, ruleMinus5] 5))
      else matchedUp [rulePlus2, ruleMinus5] 5 - matchedDown [rulePlus2, ruleMinus5] 5 + 1) :=
  c1_boosts_formula.1 (mkComputer [rulePlus2, ruleMinus5])
    ⟨⟨[rulePlus2, ruleMinus5]⟩, fun _ _ => none⟩ 5 rfl (by decide) (by decide)

/-- C2: coefficient resolution order — a query-supplied coefficient
mapping wins; otherwise a bound linear model's weight for the signal
wins; otherwise the registry default is returned. -/
theorem c2_coefficient_resolution :
    ∀ (default_coefficient : SignalEnum → ℚ) (c : SignalComputer) (s : SignalEnum),
      (∀ m, c.query_signal_coefficients = some m →
        c.coefficient default_coefficient s = m.get s) ∧
      (∀ model w, c.query_signal_coefficients = none → c.linear_regression = some model →
        model.weights s = some w → c.coefficient default_coefficient s = w) ∧
      (c.query_signal_coefficients = none →
        (c.linear_regression = none ∨
          ∃ model, c.linear_regression = some model ∧ model.weights s = none) →
        c.coefficient default_coefficient s = default_coefficient s) := by
  intro d c s
  refine ⟨?_, ?_, ?_⟩
  · intro m hm
    simp [SignalComputer.coefficient, hm, Option.orElse]
  · intro model w hq hl hw
    simp [SignalComputer.coefficient, hq, hl, hw, Option.orElse]
  · intro hq hcase
    rcases hcase with h | ⟨model, hl, hw⟩
    · simp [SignalComputer.coefficient, hq, h, Option.orElse]
    · simp [SignalComputer.coefficient, hq, hl, hw, Option.orElse]

/-- C2 witness: three fixtures differing only in which source supplies
the signal — override present gives 3, model weight gives 5, registry
default gives 9. -/
theorem c2_witness :
    SignalComputer.coefficient exDefaults computerA sigS = 3 ∧
    SignalComputer.coefficient exDefaults computerB sigS = 5 ∧
    SignalComputer.coefficient exDefaults computerC sigS = 9 :=
  ⟨((c2_coefficient_resolution exDefaults computerA sigS).1 qOverride rfl).trans rfl,
   (c2_coefficient_resolution exDefaults computerB sigS).2.1 lrModel 5 rfl rfl rfl,
   ((c2_coefficient_resolution exDefaults computerC sigS).2.2 rfl (Or.inl rfl)).trans rfl⟩

/-- C5: on a bound segment `boosts` always returns a positive value;
under ascending access it is exactly 1 when no rule's docset contains
the doc, at least 1 when the summed positive boosts reach the summed
downranks, and in (0, 1] when the downranks exceed the boosts. -/
theorem c5_boosts_range :
    (∀ (c : SignalComputer) (sr : SegmentReader) (doc : Nat),
        c.segment_reader = some sr → ∃ v, c.boosts doc = some v ∧ 0 < v) ∧
    (∀ (c : SignalComputer) (sr : SegmentReader) (doc : Nat),
        c.segment_reader = some sr → doc < TERMINATED →
        (∀ r ∈ sr.optic_boosts.rules, r.fresh) →
        ∃ v, c.boosts doc = some v ∧ 0 < v ∧
          ((∀ r ∈ sr.optic_boosts.rules, doc ∉ r.docset.docs) → v = 1) ∧
          (matchedDown sr.optic_boosts.rules doc ≤ matchedUp sr.optic_boosts.rules doc →
            1 ≤ v) ∧
          (matchedUp sr.optic_boosts.rules doc < matchedDown sr.optic_boosts.rules doc →
            v ≤ 1)) := by
  constructor
  · intro c sr doc hsr
    exact ⟨_, boosts_eq_sums doc hsr, boostFormula_pos⟩
  · intro c sr doc hsr hd hr
    refine ⟨_, boosts_closed_form doc hsr hd hr, boostFormula_pos, ?_, ?_, ?_⟩
    · intro hnone
      rw [matchedUp_eq_zero hnone, matchedDown_eq_zero hnone]
      norm_num
    · exact boostFormula_ge_one
    · exact boostFormula_le_one

/-- C5 witness: the range facts instantiated on the `(+2, −5)` fixture
at doc 5. -/
theorem c5_witness :
    ∃ v, (mkComputer [rulePlus2, ruleMinus5]).boosts 5 = some v ∧ 0 < v ∧
      ((∀ r ∈ [rulePlus2, ruleMinus5], (5 : Nat) ∉ r.docset.docs) → v = 1) ∧
      (matchedDown [rulePlus2, ruleMinus5] 5 ≤ matchedUp [rulePlus2, ruleMinus5] 5 → 1 ≤ v) ∧
      (matchedUp [rulePlus2, ruleMinus5] 5 < matchedDown [rulePlus2, ruleMinus5] 5 → v ≤ 1) :=
  c5_boosts_range.2 (mkComputer [rulePlus2, ruleMinus5])
    ⟨⟨[rulePlus2, ruleMinus5]⟩, fun _ _ => none⟩ 5 rfl (by decide) (by decide)

/-- C7: `boosts` returns none exactly when no segment is bound;
`register_segment` binds one, after which `boosts` is some; and before
binding, `compute_signals` yields a score-free sequence (one `none` per
requested signal) rather than raising. -/
theorem c7_missing_segment :
    ∀ (c : SignalComputer) (doc : Nat),
      (c.boosts doc = none ↔ c.segment_reader = none) ∧
      (∀ sr, ((c.register_segment sr).boosts doc).isSome = true) ∧
      (∀ order, c.segment_reader = none →
        c.compute_signals order doc = order.map (fun _ => none)) := by
  intro c doc
  refine ⟨?_, ?_, ?_⟩
  · unfold SignalComputer.boosts
    exact Option.map_eq_none'
  · intro sr
    simp [SignalComputer.register_segment, SignalComputer.boosts]
  · intro order h
    unfold SignalComputer.compute_signals
    rw [h]

/-- C7 witness: the fresh computer has no bound segment, so `boosts` is
none and `compute_signals` is score-free; binding a segment makes
`boosts` return a value. -/
theorem c7_witness :
    unboundComputer.boosts 0 = none ∧
    ((unboundComputer.register_segment ⟨⟨[]⟩, fun _ _ => none⟩).boosts 0).isSome = true ∧
    unboundComputer.compute_signals [sigS] 0 = [sigS].map (fun _ => none) :=
  ⟨(c7_missing_segment unboundComputer 0).1.mpr rfl,
   (c7_missing_segment unboundComputer 0).2.1 ⟨⟨[]⟩, fun _ _ => none⟩,
   (c7_missing_segment unboundComputer 0).2.2 [sigS] rfl⟩

/-- C9: at construction, exactly the optic rules whose action is
`Discard` or whose boost/downrank magnitude is zero are removed from
the captured rule list; every other rule is retained in order. -/
theorem c9_rule_filtering :
    ∀ (log2 : Nat → ℚ) (now : Nat) (q : Query),
      ∃ qd, (SignalComputer.new log2 now (some q)).query_data = some qd ∧
        qd.simple_terms = q.simple_terms ∧
        qd.selected_region = q.region ∧
        qd.optic_rules
          = (q.optics.flatMap (fun o => o.rules)).filter (fun r => !(ruleRemovedClaim r)) := by
  intro log2 now q
  refine ⟨_, rfl, rfl, rfl, ?_⟩
  apply List.filter_congr
  intro r _
  rcases r with ⟨m, a⟩
  cases a <;> rfl

/-- C10: the freshness cache has one entry per hour over three years,
entry `h` being the `f64` value `1 / log2(h + 1)`; since IEEE `log2`
is exactly zero at one, the entry at index 0 is `+∞`, and a document
whose update timestamp is less than one hour old receives that infinite
freshness value. -/
theorem c10_freshness_cache :
    ∀ (log2 : Nat → ℚ) (now : Nat) (q : Option Query),
      (SignalComputer.new log2 now q).update_time_cache.length = 3 * 365 * 24 ∧
      (∀ h, h < 3 * 365 * 24 →
        ((SignalComputer.new log2 now q).update_time_cache)[h]?
          = some (f64div 1 (log2 (h + 1)))) ∧
      (log2 1 = 0 →
        ((SignalComputer.new log2 now q).update_time_cache)[0]? = some FVal.inf ∧
        ∀ ts, now - ts < 3600 →
          (SignalComputer.new log2 now q).update_freshness ((now - ts) / 3600)
            = some FVal.inf) := by
  intro log2 now q
  have hcache : (SignalComputer.new log2 now q).update_time_cache
      = (List.range (3 * 365 * 24)).map (fun h => f64div 1 (log2 (h + 1))) := by
    simp only [SignalComputer.new]
  have hget : ∀ h, h < 3 * 365 * 24 →
      ((SignalComputer.new log2 now q).update_time_cache)[h]?
        = some (f64div 1 (log2 (h + 1))) := by
    intro h hh
    rw [hcache, List.getElem?_map, List.getElem?_range hh]
    rfl
  refine ⟨by rw [hcache]; simp, hget, ?_⟩
  intro hlog
  have h0 : ((SignalComputer.new log2 now q).update_time_cache)[0]? = some FVal.inf := by
    rw [hget 0 (by norm_num)]
    simp [f64div, hlog]
  refine ⟨h0, ?_⟩
  intro ts hts
  unfold SignalComputer.update_freshness
  rw [Nat.div_eq_of_lt hts]
  simpa using h0

/-- C10 witness: with a stand-in for `log2` that is zero at one, the
cache entry at index 0 of a freshly constructed computer is infinite,
and a doc updated 1000 seconds ago (less than an hour) gets an
infinite freshness value. -/
theorem c10_witness :
    (unboundComputer.update_time_cache)[0]? = some FVal.inf ∧
    unboundComputer.update_freshness ((1000 - 0) / 3600) = some FVal.inf := by
  have h := (c10_freshness_cache exLog2 1000 none).2.2 rfl
  exact ⟨h.1, h.2 0 (by decide)⟩

end Stract
